import Mathlib

set_option maxRecDepth 8000

/- Verification development for the teaching-selection engine of the Krishna
GPT backend (src/main.py).  The matcher is embedded shallowly: Python strings
become Lean String, Python sets become Finset String, Python dicts used as
records become a Lean structure, and the one place the code can raise an
exception (indexing an empty list) is modelled with Except. -/

/-- Model of the prefix test underlying the Python substring operator: the
character list k occurs at the start of w. -/
def prefOf : List Char → List Char → Bool
  | [], _ => true
  | _ :: _, [] => false
  | a :: as, b :: bs => a == b && prefOf as bs

/-- Model of the Python substring operator k in w on character lists: k occurs
contiguously somewhere inside w. -/
def substrOf : List Char → List Char → Bool
  | k, [] => prefOf k []
  | k, c :: ws => prefOf k (c :: ws) || substrOf k ws

/-- Model of the Python substring operator k in w for strings. -/
def substr (k w : String) : Bool :=
  substrOf k.toList w.toList

/-- Model of one entry of GITA_KNOWLEDGE_BASE (src/main.py lines 36-145): a
dict with keys keywords, chapter, verse, reference, teaching and image_url.
Fields appear in the order of the source dict literals. -/
structure Entry where
  keywords : List String
  chapter : String
  verse : String
  reference : String
  teaching : String
  image_url : String
deriving DecidableEq

/-- Entry for chapter 2.47 (duty theme), src/main.py lines 37-48. -/
def gitaDuty : Entry :=
  ⟨["duty", "dharma", "work", "karma", "action", "responsibility", "job",
    "career", "study", "studies"],
   "2.47",
   "karmaṇy-evādhikāras te mā phaleṣhu kadāchana",
   "Bhagavad-gītā 2.47",
   "O Arjuna, your right is to perform your prescribed duty, but never to the fruits. Perform your work as an offering to Me, free from attachment and anxiety. When action is done in devotion, peace follows like a cool moonlight on a clear night.",
   "https://upload.wikimedia.org/wikipedia/commons/0/08/Kurukshetra_Bhagavad_Gita.jpg"⟩

/-- Entry for chapter 18.66 (surrender theme, the designated fallback),
src/main.py lines 49-60. -/
def gitaSurrender : Entry :=
  ⟨["surrender", "take shelter", "refuge", "give up", "fear", "deliver",
    "save", "forgive", "mercy"],
   "18.66",
   "sarva-dharmān parityajya mām ekaṁ śharaṇaṁ vraja",
   "Bhagavad-gītā 18.66",
   "Abandon all varieties of duty and simply take shelter of Me. I shall deliver you from all reactions; do not fear. Offer your heart to Me with trust—when the child holds the father\x27s hand, the road becomes safe.",
   "https://upload.wikimedia.org/wikipedia/commons/4/4d/Krishna_and_Arjuna.jpg"⟩

/-- Entry for chapter 6.35 (mind theme), src/main.py lines 61-72. -/
def gitaMind : Entry :=
  ⟨["mind", "control", "meditation", "yoga", "practice", "abhyasa",
    "vairagya", "anxiety", "stress", "overthink"],
   "6.35",
   "asaṁśayaṁ mahā-bāho mano durnigrahaṁ chalam",
   "Bhagavad-gītā 6.35",
   "The mind is restless and difficult to curb, but by constant practice and detachment it can be controlled. Begin with remembrance of Me—chant My names, hear My glories—and the mind, like a wild river, will gently find the ocean of peace.",
   "https://upload.wikimedia.org/wikipedia/commons/7/77/Krishna_Arjuna.jpg"⟩

/-- Entry for chapter 2.20 (soul theme), src/main.py lines 73-84. -/
def gitaSoul : Entry :=
  ⟨["soul", "atma", "death", "birth", "change", "body", "eternal", "rebirth",
    "reincarnation", "die"],
   "2.20",
   "na jāyate mriyate vā kadācin",
   "Bhagavad-gītā 2.20",
   "The soul is unborn, eternal, ever-existing, and primeval; it is not slain when the body is slain. Grief fades when one knows the self beyond the body—see with wisdom, O Arjuna, and stand steady in your duty.",
   "https://upload.wikimedia.org/wikipedia/commons/9/9a/Bhagavad_Gita_Krishna_Arjuna.jpg"⟩

/-- Entry for chapter 9.26 (food and offering theme), src/main.py lines
85-96. -/
def gitaFood : Entry :=
  ⟨["food", "offer", "prayer", "eat", "prasadam", "yajna", "devotion",
    "diet", "vegetarian", "cook"],
   "9.26",
   "patraṁ puṣhpaṁ phalaṁ toyaṁ yo me bhaktyā prayachchhati",
   "Bhagavad-gītā 9.26",
   "If one offers Me with love a leaf, a flower, fruit, or water, I accept it. Cook and eat as an offering to Me; then even simple fare becomes sanctified, and your heart becomes light and joyful.",
   "https://upload.wikimedia.org/wikipedia/commons/1/17/Krishna_with_flute.jpg"⟩

/-- Entry for chapter 9.34 (devotion theme), src/main.py lines 97-108. -/
def gitaDevotion : Entry :=
  ⟨["devotion", "bhakti", "love", "serve", "chant", "remember", "worship",
    "faith"],
   "9.34",
   "man-manā bhava mad-bhakto",
   "Bhagavad-gītā 9.34",
   "Fix your mind on Me, become My devotee, worship Me, and offer your homage to Me; surely you will come to Me. Keep Me at the center—then your days will become a garland of auspicious moments.",
   "https://upload.wikimedia.org/wikipedia/commons/0/0c/Krishna_and_Radha%2C_19_century%2C_India.jpg"⟩

/-- Entry for chapter 3.37 (anger theme), src/main.py lines 109-120. -/
def gitaAnger : Entry :=
  ⟨["anger", "lust", "greed", "kama", "krodha", "lobha", "desire",
    "addiction"],
   "3.37",
   "kāma eṣha krodha eṣha rajo-guṇa-samudbhavaḥ",
   "Bhagavad-gītā 3.37",
   "It is lust only, Arjuna, born of contact with the mode of passion, which later transforms into wrath. Conquer it by regulating the senses and engaging them in My service; then your heart becomes calm like a lotus on the water.",
   "https://upload.wikimedia.org/wikipedia/commons/6/6a/Krishna_Bhagavad_Gita.jpg"⟩

/-- Entry for chapter 5.18 (equal vision theme), src/main.py lines 121-132. -/
def gitaEquality : Entry :=
  ⟨["equality", "friend", "enemy", "see equally", "humble", "brahmana",
    "cow", "dog"],
   "5.18",
   "vidyā-vinaya-sampanne brāhmaṇe gavi hastini",
   "Bhagavad-gītā 5.18",
   "The humble sages, by virtue of true knowledge, see with equal vision a learned and gentle brāhmaṇa, a cow, an elephant, a dog and a dog-eater. Cultivate respect for all beings and you will feel My presence everywhere.",
   "https://upload.wikimedia.org/wikipedia/commons/4/42/Krishna_with_Arjuna.jpg"⟩

/-- Entry for chapter 3.19 (selfless service theme), src/main.py lines
133-144. -/
def gitaService : Entry :=
  ⟨["service", "seva", "detachment", "renunciation", "work without result",
    "selfless"],
   "3.19",
   "tasmād asaktaḥ satataṁ kāryaṁ karma samāchara",
   "Bhagavad-gītā 3.19",
   "Therefore, without being attached to the fruits of activities, one should act as a matter of duty; for by working without attachment, one attains the Supreme. Convert every task into service and you will feel light.",
   "https://upload.wikimedia.org/wikipedia/commons/3/3b/Krishna_and_Arjuna_in_chariot.jpg"⟩

/-- The static knowledge base GITA_KNOWLEDGE_BASE (src/main.py lines 36-145),
in definition order. -/
def GITA_KNOWLEDGE_BASE : List Entry :=
  [gitaDuty, gitaSurrender, gitaMind, gitaSoul, gitaFood, gitaDevotion,
   gitaAnger, gitaEquality, gitaService]

/-- The stopword set STOPWORDS (src/main.py lines 148-150).  The source
builds a Python set by splitting one comma-separated literal; only
membership is ever used, so a list in the same order is a faithful model. -/
def STOPWORDS : List String :=
  ["a", "an", "the", "of", "to", "in", "is", "are", "am", "and", "or", "for",
   "with", "on", "at", "by", "from", "that", "this", "those", "these", "it",
   "as", "be", "was", "were", "have", "has", "had", "do", "does", "did",
   "not", "no", "can", "could", "should", "would", "may", "might", "will",
   "shall", "my", "me", "i", "you", "your", "our", "us", "we"]

/-- The synonym table SYNONYMS (src/main.py lines 152-159), in dict insertion
order (Python dicts preserve it and the code iterates items in that order). -/
def SYNONYMS : List (String × List String) :=
  [("duty", ["work", "job", "career", "study", "responsibility", "task"]),
   ("surrender", ["refuge", "shelter", "give up", "trust", "faith"]),
   ("mind", ["anxiety", "stress", "thoughts", "overthink"]),
   ("soul", ["self", "atma", "spirit"]),
   ("devotion", ["bhakti", "worship", "love", "remember"]),
   ("anger", ["lust", "greed", "desire"])]

/-- Model of the Python str.split() call with no separator: split on runs of
whitespace, producing no empty words.  The accumulator cur holds the current
word reversed. -/
def pySplit : List Char → List Char → List (List Char)
  | [], cur => if cur.isEmpty then [] else [cur.reverse]
  | c :: rest, cur =>
      if c.isWhitespace then
        if cur.isEmpty then pySplit rest [] else cur.reverse :: pySplit rest []
      else pySplit rest (c :: cur)

/-- Model of tokenize (src/main.py lines 162-165): map each character to its
lowercase form when alphanumeric or whitespace and to a space otherwise, then
split on whitespace and keep the nonempty words that are not stopwords.
Character classification follows the ASCII fragment of the Python
predicates. -/
def tokenize (text : String) : List String :=
  let t : List Char := text.toList.map
    (fun ch => if ch.isAlphanum || ch.isWhitespace then ch.toLower else ' ')
  ((pySplit t []).map String.mk).filter
    (fun w => w != "" && !(STOPWORDS.contains w))

/-- Model of the body of the synonym loop in select_teaching (src/main.py
lines 174-177): one synonym-table row p is inspected for the word w, and on a
hit the canonical key and all its aliases are appended. -/
def synStep (w : String) (acc2 : List String) (p : String × List String) :
    List String :=
  if w == p.1 || p.2.contains w then acc2 ++ p.1 :: p.2 else acc2

/-- Model of one iteration of the outer expansion loop in select_teaching
(src/main.py lines 172-177): append the word itself, then walk the synonym
table. -/
def expandStep (acc : List String) (w : String) : List String :=
  SYNONYMS.foldl (synStep w) (acc ++ [w])

/-- Model of the full expansion loop in select_teaching (src/main.py lines
171-177), producing the list expanded. -/
def expand (words : List String) : List String :=
  words.foldl expandStep []

/-- The expanded query set qset of select_teaching (src/main.py line 178). -/
def qsetOf (q : String) : Finset String :=
  (expand (tokenize q)).toFinset

/-- The keyword set kw built per entry in select_teaching (src/main.py line
183). -/
def kwSet (e : Entry) : Finset String :=
  e.keywords.toFinset

/-- Model of the per-entry score in select_teaching (src/main.py lines
184-186): the size of the intersection of the query set with the keyword
set, plus one for every pair of a keyword longer than four characters and a
query word containing it as a substring. -/
def score (e : Entry) (qset : Finset String) : Nat :=
  (qset ∩ kwSet e).card +
    Finset.sum (kwSet e)
      (fun k => Finset.sum qset
        (fun w => if 4 < k.length ∧ substr k w = true then 1 else 0))

/-- Model of the body of the scanning loop in select_teaching (src/main.py
lines 187-189): replace the running best exactly when the score is strictly
greater. -/
def scanStep (qset : Finset String) (acc : Option Entry × Int)
    (item : Entry) : Option Entry × Int :=
  if (score item qset : Int) > acc.2 then
    (some item, (score item qset : Int))
  else acc

/-- Model of the scanning loop in select_teaching (src/main.py lines
180-189), started from best = None and best_score = -1. -/
def scanBest (kb : List Entry) (qset : Finset String) : Option Entry × Int :=
  kb.foldl (scanStep qset) (none, -1)

/-- Model of select_teaching (src/main.py lines 168-196) generalized over the
knowledge base list: scan for the best entry, override with the chapter 18.66
entry when the best score is at most 0, and model the final
best or GITA_KNOWLEDGE_BASE[-1] expression, whose negative indexing raises
IndexError on an empty list. -/
def selectFromKB (kb : List Entry) (q : String) : Except String Entry :=
  match (if (scanBest kb (qsetOf q)).2 ≤ 0 then
          match kb.find? (fun item => item.chapter == "18.66") with
          | some item => some item
          | none => (scanBest kb (qsetOf q)).1
         else (scanBest kb (qsetOf q)).1) with
  | some e => Except.ok e
  | none =>
      match kb.getLast? with
      | some e => Except.ok e
      | none => Except.error ("IndexError: list index out of range")

/-- Model of select_teaching (src/main.py lines 168-196) applied to the
static knowledge base, as the endpoint handler calls it. -/
def select_teaching (q : String) : Except String Entry :=
  selectFromKB GITA_KNOWLEDGE_BASE q

/-- The best score produced by the scanning loop of select_teaching for a
question, before the fallback override is applied. -/
def bestScore (q : String) : Int :=
  (scanBest GITA_KNOWLEDGE_BASE (qsetOf q)).2

/-- Tokenizer restated from the words of the specification (section 4.1):
first replace every character that is neither alphanumeric nor whitespace by
a single space, then lowercase the result, then split on whitespace, then
drop the stopwords. -/
def tokenize_spec (text : String) : List String :=
  let replaced : List Char := text.toList.map
    (fun ch => if !ch.isAlphanum && !ch.isWhitespace then ' ' else ch)
  let lowered : List Char := replaced.map Char.toLower
  ((pySplit lowered []).map String.mk).filter
    (fun w => !(STOPWORDS.contains w))

/-- Exact component of the score as worded in the specification: the number
of exact set-intersection matches. -/
def exactScore (e : Entry) (Q : Finset String) : Nat :=
  (Q ∩ kwSet e).card

/-- Pairs receiving substring credit as worded in the specification: pairs of
a keyword of e and a query word where the keyword is longer than four
characters and occurs inside the query word. -/
def substrPairs (e : Entry) (Q : Finset String) : Finset (String × String) :=
  (kwSet e ×ˢ Q).filter (fun p => 4 < p.1.length ∧ substr p.1 p.2 = true)

/-- The static knowledge base is a nonempty list. -/
theorem kb_ne_nil : GITA_KNOWLEDGE_BASE ≠ [] := by
  unfold GITA_KNOWLEDGE_BASE
  exact List.cons_ne_nil _ _

/-- The fallback search of select_teaching (src/main.py lines 191-195) finds
the chapter 18.66 entry. -/
theorem find_fallback :
    GITA_KNOWLEDGE_BASE.find? (fun item => item.chapter == "18.66")
      = some gitaSurrender := by
  rfl

/-- The fallback entry is a member of the knowledge base. -/
theorem fallback_mem : gitaSurrender ∈ GITA_KNOWLEDGE_BASE := by
  unfold GITA_KNOWLEDGE_BASE
  exact List.Mem.tail _ (List.Mem.head _)

/-- Invariant of the scanning loop: starting from any accumulator, the fold
either keeps the accumulator because no later entry beats its value, or it
stops at the first entry of the list achieving the maximal score, with all
earlier entries scoring strictly less and all later entries scoring no
more. -/
theorem scan_aux (qset : Finset String) (kb : List Entry) :
    ∀ (b0 : Option Entry) (v0 : Int),
      (List.foldl (scanStep qset) (b0, v0) kb = (b0, v0)
        ∧ ∀ e ∈ kb, (score e qset : Int) ≤ v0)
      ∨ (∃ l1 e l2, kb = l1 ++ e :: l2
          ∧ List.foldl (scanStep qset) (b0, v0) kb
              = (some e, (score e qset : Int))
          ∧ v0 < (score e qset : Int)
          ∧ (∀ x ∈ l1, score x qset < score e qset)
          ∧ (∀ y ∈ l2, score y qset ≤ score e qset)) := by
  induction kb with
  | nil =>
    intro b0 v0
    exact Or.inl ⟨rfl, by simp⟩
  | cons x rest ih =>
    intro b0 v0
    by_cases hx : v0 < (score x qset : Int)
    · have hstep : scanStep qset (b0, v0) x
          = (some x, (score x qset : Int)) := by
        simp [scanStep, gt_iff_lt, hx]
      rw [List.foldl_cons, hstep]
      rcases ih (some x) ((score x qset : Int)) with
        ⟨heq, hall⟩ | ⟨l1, e, l2, hsplit, heq, hv, h1, h2⟩
      · refine Or.inr ⟨[], x, rest, rfl, heq, hx, by simp, ?_⟩
        intro y hy
        exact_mod_cast hall y hy
      · refine Or.inr ⟨x :: l1, e, l2, by rw [hsplit, List.cons_append], heq,
          lt_trans hx hv, ?_, h2⟩
        intro z hz
        rcases List.mem_cons.mp hz with rfl | hz'
        · exact_mod_cast hv
        · exact h1 z hz'
    · have hstep : scanStep qset (b0, v0) x = (b0, v0) := by
        simp [scanStep, gt_iff_lt, hx]
      rw [List.foldl_cons, hstep]
      rcases ih b0 v0 with
        ⟨heq, hall⟩ | ⟨l1, e, l2, hsplit, heq, hv, h1, h2⟩
      · refine Or.inl ⟨heq, ?_⟩
        intro e he
        rcases List.mem_cons.mp he with rfl | he'
        · exact not_lt.mp hx
        · exact hall e he'
      · refine Or.inr ⟨x :: l1, e, l2, by rw [hsplit, List.cons_append], heq, hv, ?_, h2⟩
        intro z hz
        rcases List.mem_cons.mp hz with rfl | hz'
        · have hzv : (score z qset : Int) ≤ v0 := not_lt.mp hx
          exact_mod_cast lt_of_le_of_lt hzv hv
        · exact h1 z hz'

/-- On a nonempty knowledge base the scanning loop stops at the first entry
achieving the maximal score. -/
theorem scanBest_spec (qset : Finset String) (kb : List Entry)
    (hkb : kb ≠ []) :
    ∃ l1 e l2, kb = l1 ++ e :: l2
      ∧ scanBest kb qset = (some e, (score e qset : Int))
      ∧ (∀ x ∈ l1, score x qset < score e qset)
      ∧ (∀ y ∈ l2, score y qset ≤ score e qset) := by
  rcases scan_aux qset kb none (-1) with
    ⟨heq, hall⟩ | ⟨l1, e, l2, hsplit, heq, hv, h1, h2⟩
  · cases kb with
    | nil => exact absurd rfl hkb
    | cons x rest =>
      have hx := hall x (List.mem_cons_self x rest)
      have hx0 : (0 : Int) ≤ (score x qset : Int) := Int.natCast_nonneg _
      omega
  · exact ⟨l1, e, l2, hsplit, heq, h1, h2⟩

/-- C1.  For every question string, if the best score over all entries in the
knowledge base is at most 0, including the case of an empty query set, then
select_teaching discards the scan result and returns the designated fallback
entry, the entry with chapter 18.66, never a weakly-scoring non-fallback
entry. -/
theorem claim1_fallback_when_no_signal (q : String)
    (h : bestScore q ≤ 0) :
    select_teaching q = Except.ok gitaSurrender
      ∧ gitaSurrender.chapter = "18.66" := by
  refine ⟨?_, rfl⟩
  unfold bestScore at h
  unfold select_teaching selectFromKB
  rw [if_pos h, find_fallback]

/-- Witness for C1 at the all-stopword question whose query set is empty. -/
theorem claim1_witness :
    bestScore "the a of it" ≤ 0
      ∧ select_teaching "the a of it" = Except.ok gitaSurrender :=
  ⟨by decide, (claim1_fallback_when_no_signal "the a of it" (by decide)).1⟩

/-- C8.  select_teaching is deterministic: two invocations with identical
question strings and the same static tables return the identical entry. -/
theorem claim8_deterministic (q1 q2 : String) (h : q1 = q2) :
    select_teaching q1 = select_teaching q2 := by
  rw [h]

/-- Witness for C8 at a concrete repeated question. -/
theorem claim8_witness :
    ("peace" : String) = "peace"
      ∧ select_teaching "peace" = select_teaching "peace" :=
  ⟨rfl, claim8_deterministic "peace" "peace" rfl⟩

/-- Counterexample for C9: with an empty knowledge base the per-request
selection path is reached and fails there with an IndexError; nothing fails
fast at startup. -/
theorem claim9_counterexample :
    selectFromKB [] "hello"
      = Except.error ("IndexError: list index out of range") := rfl

/-- C9 as amended.  The code performs no startup validation of the knowledge
base: GITA_KNOWLEDGE_BASE is a statically nonempty literal, and on a
hypothetical empty knowledge base every request reaches the selection path
and fails there with an IndexError instead of failing fast at startup. -/
theorem claim9_no_startup_validation :
    GITA_KNOWLEDGE_BASE ≠ []
      ∧ ∀ q : String,
          selectFromKB [] q
            = Except.error ("IndexError: list index out of range") :=
  ⟨kb_ne_nil, fun _ => rfl⟩

/-- C10.  For every question string, select_teaching on the knowledge base as
defined is total: it returns some member of GITA_KNOWLEDGE_BASE and never an
error. -/
theorem claim10_total_and_member (q : String) :
    ∃ e, select_teaching q = Except.ok e ∧ e ∈ GITA_KNOWLEDGE_BASE := by
  obtain ⟨l1, e, l2, hsplit, heq, h1, h2⟩ :=
    scanBest_spec (qsetOf q) GITA_KNOWLEDGE_BASE kb_ne_nil
  by_cases h0 : (scanBest GITA_KNOWLEDGE_BASE (qsetOf q)).2 ≤ 0
  · refine ⟨gitaSurrender, ?_, fallback_mem⟩
    unfold select_teaching selectFromKB
    rw [if_pos h0, find_fallback]
  · refine ⟨e, ?_, ?_⟩
    · unfold select_teaching selectFromKB
      rw [if_neg h0, heq]
    · rw [hsplit]
      exact List.mem_append_right _ (List.mem_cons_self _ _)

/-- C3.  For every question whose best score is strictly positive,
select_teaching returns the first entry, in knowledge-base definition order,
achieving the maximal score: every earlier entry scores strictly less and
every later entry scores no more, so a later entry with an equal score never
replaces it. -/
theorem claim3_first_argmax (q : String) (h : 0 < bestScore q) :
    ∃ l1 e l2, GITA_KNOWLEDGE_BASE = l1 ++ e :: l2
      ∧ select_teaching q = Except.ok e
      ∧ (∀ x ∈ l1, score x (qsetOf q) < score e (qsetOf q))
      ∧ (∀ y ∈ l2, score y (qsetOf q) ≤ score e (qsetOf q)) := by
  obtain ⟨l1, e, l2, hsplit, heq, h1, h2⟩ :=
    scanBest_spec (qsetOf q) GITA_KNOWLEDGE_BASE kb_ne_nil
  have h0 : ¬ (scanBest GITA_KNOWLEDGE_BASE (qsetOf q)).2 ≤ 0 := by
    unfold bestScore at h
    omega
  refine ⟨l1, e, l2, hsplit, ?_, h1, h2⟩
  unfold select_teaching selectFromKB
  rw [if_neg h0, heq]

/-- Witness for C3 at a question with a strictly positive best score. -/
theorem claim3_witness :
    0 < bestScore "anger"
      ∧ ∃ l1 e l2, GITA_KNOWLEDGE_BASE = l1 ++ e :: l2
          ∧ select_teaching "anger" = Except.ok e
          ∧ (∀ x ∈ l1, score x (qsetOf "anger") < score e (qsetOf "anger"))
          ∧ (∀ y ∈ l2, score y (qsetOf "anger") ≤ score e (qsetOf "anger")) :=
  ⟨by decide, claim3_first_argmax "anger" (by decide)⟩

/-- C2.  For every entry and every expanded query set Q, the score equals the
exact component plus the substring component: exact counts the intersection
of Q with the keyword set, and the substring component counts the pairs of a
keyword longer than four characters with a query word containing it; a
keyword of length at most four never contributes such a pair, while a
keyword of length greater than four contributes a pair whenever it occurs
inside a query word. -/
theorem claim2_score_decomposition (e : Entry) (Q : Finset String) :
    score e Q = exactScore e Q + (substrPairs e Q).card
      ∧ (∀ k w : String, k.length ≤ 4 → (k, w) ∉ substrPairs e Q)
      ∧ (∀ k w : String, k ∈ kwSet e → w ∈ Q → 4 < k.length →
            substr k w = true → (k, w) ∈ substrPairs e Q) := by
  refine ⟨?_, ?_, ?_⟩
  · unfold score exactScore substrPairs
    rw [Finset.card_filter, Finset.sum_product]
  · intro k w hk hmem
    have h4 : 4 < k.length := ((Finset.mem_filter.mp hmem).2).1
    omega
  · intro k w hk hw h4 hs
    exact Finset.mem_filter.mpr ⟨Finset.mem_product.mpr ⟨hk, hw⟩, h4, hs⟩

/-- Witness for C2: the length-4 keyword love earns no pair from the longer
word lovely, while the length-9 keyword surrender earns a pair from the
longer word surrendering. -/
theorem claim2_witness :
    ("love", "lovely") ∉ substrPairs gitaDevotion {"lovely"}
      ∧ ("surrender", "surrendering")
          ∈ substrPairs gitaSurrender {"surrendering"} :=
  ⟨(claim2_score_decomposition gitaDevotion {"lovely"}).2.1
      "love" "lovely" (by decide),
   (claim2_score_decomposition gitaSurrender {"surrendering"}).2.2
      "surrender" "surrendering" (by decide) (by decide) (by decide)
      (by decide)⟩

/-- C7.  The score of an entry never decreases when a keyword of the entry
that is not yet in the query set is added to the query set. -/
theorem claim7_score_monotone (e : Entry) (Q : Finset String) (k : String)
    (_hk : k ∈ kwSet e) (hkQ : k ∉ Q) :
    score e Q ≤ score e (insert k Q) := by
  unfold score
  have hsub : Q ∩ kwSet e ⊆ insert k Q ∩ kwSet e :=
    Finset.inter_subset_inter (Finset.subset_insert _ _)
      (Finset.Subset.refl _)
  refine Nat.add_le_add (Finset.card_le_card hsub) ?_
  refine Finset.sum_le_sum ?_
  intro i _
  rw [Finset.sum_insert hkQ]
  exact Nat.le_add_left _ _

/-- Witness for C7: adding the keyword duty to the empty query set does not
decrease the score of the duty entry. -/
theorem claim7_witness :
    ("duty" : String) ∈ kwSet gitaDuty
      ∧ score gitaDuty ∅ ≤ score gitaDuty (insert "duty" ∅) :=
  ⟨by decide,
   claim7_score_monotone gitaDuty ∅ "duty" (by decide) (by decide)⟩

/-- Walking the synonym table only ever appends: the accumulator stays inside
the result. -/
theorem synFold_sub (w : String) (l : List (String × List String)) :
    ∀ acc : List String, acc ⊆ l.foldl (synStep w) acc := by
  induction l with
  | nil =>
    intro acc
    exact List.Subset.refl _
  | cons p rest ih =>
    intro acc
    rw [List.foldl_cons]
    refine List.Subset.trans ?_ (ih (synStep w acc p))
    unfold synStep
    split
    · exact List.subset_append_left _ _
    · exact List.Subset.refl _

/-- When a synonym-table row matches the word, the canonical key and all its
aliases end up in the result of walking the table. -/
theorem synFold_mem (w k : String) (syns : List String)
    (l : List (String × List String)) :
    ∀ acc : List String, (k, syns) ∈ l → (w = k ∨ w ∈ syns) →
      ∀ x ∈ k :: syns, x ∈ l.foldl (synStep w) acc := by
  induction l with
  | nil =>
    intro acc h
    exact absurd h (List.not_mem_nil _)
  | cons p rest ih =>
    intro acc hmem hw x hx
    rw [List.foldl_cons]
    rcases List.mem_cons.mp hmem with heq | hmem'
    · subst heq
      have hrow : synStep w acc (k, syns) = acc ++ k :: syns := by
        unfold synStep
        split
        · rfl
        · rename_i hfalse
          exfalso
          apply hfalse
          rcases hw with rfl | hin
          · simp
          · simp [hin]
      rw [hrow]
      exact synFold_sub w rest _ (List.mem_append_right acc hx)
    · exact ih (synStep w acc p) hmem' hw x hx

/-- The outer expansion loop only ever appends: the accumulator stays inside
the result. -/
theorem expandFold_sub (words : List String) :
    ∀ acc : List String, acc ⊆ words.foldl expandStep acc := by
  induction words with
  | nil =>
    intro acc
    exact List.Subset.refl _
  | cons x rest ih =>
    intro acc
    rw [List.foldl_cons]
    refine List.Subset.trans ?_ (ih (expandStep acc x))
    unfold expandStep
    exact List.Subset.trans (List.subset_append_left acc [x])
      (synFold_sub x SYNONYMS _)

/-- Every input word survives into the expansion. -/
theorem expand_mem_word (words : List String) :
    ∀ (acc : List String) (w : String), w ∈ words →
      w ∈ words.foldl expandStep acc := by
  induction words with
  | nil =>
    intro acc w hw
    exact absurd hw (List.not_mem_nil _)
  | cons x rest ih =>
    intro acc w hw
    rw [List.foldl_cons]
    rcases List.mem_cons.mp hw with rfl | hw'
    · refine expandFold_sub rest _ ?_
      unfold expandStep
      refine synFold_sub w SYNONYMS _ ?_
      exact List.mem_append_right acc (List.mem_cons_self _ _)
    · exact ih _ w hw'

/-- Every matching synonym cluster is pulled whole into the expansion. -/
theorem expand_mem_cluster (words : List String) :
    ∀ (acc : List String) (w k : String) (syns : List String),
      w ∈ words → (k, syns) ∈ SYNONYMS → (w = k ∨ w ∈ syns) →
      ∀ x ∈ k :: syns, x ∈ words.foldl expandStep acc := by
  induction words with
  | nil =>
    intro acc w k syns hw
    exact absurd hw (List.not_mem_nil _)
  | cons y rest ih =>
    intro acc w k syns hw hmem hcl x hx
    rw [List.foldl_cons]
    rcases List.mem_cons.mp hw with rfl | hw'
    · refine expandFold_sub rest _ ?_
      unfold expandStep
      exact synFold_mem w k syns SYNONYMS _ hmem hcl x hx
    · exact ih _ w k syns hw' hmem hcl x hx

/-- C4.  The synonym expansion always keeps each input word, and whenever a
word equals a canonical key of the synonym table or is one of its aliases,
the key and every alias join the expanded set; consequently a question
containing only the word job scores at least 1 against any entry whose
keywords include duty. -/
theorem claim4_synonym_expansion :
    (∀ (words : List String) (w : String), w ∈ words →
        w ∈ (expand words).toFinset)
      ∧ (∀ (words : List String) (w k : String) (syns : List String),
          w ∈ words → (k, syns) ∈ SYNONYMS → (w = k ∨ w ∈ syns) →
          k ∈ (expand words).toFinset
            ∧ ∀ s ∈ syns, s ∈ (expand words).toFinset)
      ∧ (∀ e : Entry, "duty" ∈ e.keywords → 1 ≤ score e (qsetOf "job")) := by
  refine ⟨?_, ?_, ?_⟩
  · intro words w hw
    exact List.mem_toFinset.mpr (expand_mem_word words [] w hw)
  · intro words w k syns hw hmem hcl
    constructor
    · exact List.mem_toFinset.mpr
        (expand_mem_cluster words [] w k syns hw hmem hcl k
          (List.mem_cons_self _ _))
    · intro s hs
      exact List.mem_toFinset.mpr
        (expand_mem_cluster words [] w k syns hw hmem hcl s
          (List.mem_cons_of_mem _ hs))
  · intro e he
    have hduty : "duty" ∈ qsetOf "job" ∩ kwSet e :=
      Finset.mem_inter.mpr ⟨by decide, List.mem_toFinset.mpr he⟩
    have hpos : 0 < (qsetOf "job" ∩ kwSet e).card :=
      Finset.card_pos.mpr ⟨_, hduty⟩
    have hle : (qsetOf "job" ∩ kwSet e).card ≤ score e (qsetOf "job") :=
      Nat.le_add_right _ _
    omega

/-- Witness for C4 at the single-word question job against the duty entry. -/
theorem claim4_witness :
    ("job" : String) ∈ (expand ["job"]).toFinset
      ∧ ("duty" : String) ∈ (expand ["job"]).toFinset
      ∧ 1 ≤ score gitaDuty (qsetOf "job") :=
  ⟨claim4_synonym_expansion.1 ["job"] "job" (List.mem_cons_self _ _),
   (claim4_synonym_expansion.2.1 ["job"] "job" "duty"
      ["work", "job", "career", "study", "responsibility", "task"]
      (List.mem_cons_self _ _) (by decide) (Or.inr (by decide))).1,
   claim4_synonym_expansion.2.2 gitaDuty (by decide)⟩

/-- Every word produced by the whitespace splitter is nonempty. -/
theorem pySplit_word_ne (l : List Char) :
    ∀ cur : List Char, ∀ w ∈ pySplit l cur, w ≠ [] := by
  induction l with
  | nil =>
    intro cur w hw
    unfold pySplit at hw
    split at hw
    · exact absurd hw (List.not_mem_nil _)
    · rename_i hcur
      rw [List.mem_singleton] at hw
      subst hw
      intro hcontra
      rw [List.reverse_eq_nil_iff] at hcontra
      subst hcontra
      exact hcur rfl
  | cons c rest ih =>
    intro cur w hw
    unfold pySplit at hw
    split at hw
    · split at hw
      · exact ih [] w hw
      · rename_i hcur
        rcases List.mem_cons.mp hw with rfl | hw'
        · intro hcontra
          rw [List.reverse_eq_nil_iff] at hcontra
          subst hcontra
          exact hcur rfl
        · exact ih [] w hw'
    · exact ih (c :: cur) w hw

/-- The fused character map of tokenize agrees pointwise with the two-stage
replace-then-lowercase map of the specification. -/
theorem tokenize_char_map (ch : Char) :
    (if ch.isAlphanum || ch.isWhitespace then ch.toLower else ' ')
      = Char.toLower
          (if !ch.isAlphanum && !ch.isWhitespace then ' ' else ch) := by
  by_cases h1 : ch.isAlphanum = true
  · simp [h1]
  · by_cases h2 : ch.isWhitespace = true
    · simp [h1, h2]
    · simp [h1, h2]

/-- C5.  tokenize equals the specification pipeline: replace every character
that is neither alphanumeric nor whitespace with a single space, lowercase
the result, split on whitespace, and drop every stopword; and the result may
be empty, as on an all-stopword and punctuation question, without being an
error. -/
theorem claim5_tokenize_refinement :
    (∀ text : String, tokenize text = tokenize_spec text)
      ∧ tokenize "the a of it." = [] := by
  constructor
  · intro text
    simp only [tokenize, tokenize_spec]
    rw [List.map_map]
    have hmap : text.toList.map
        (fun ch => if ch.isAlphanum || ch.isWhitespace then ch.toLower
                   else ' ')
        = text.toList.map
            (Char.toLower ∘
              fun ch => if !ch.isAlphanum && !ch.isWhitespace then ' '
                        else ch) := by
      apply List.map_congr_left
      intro ch _
      exact tokenize_char_map ch
    rw [hmap]
    apply List.filter_congr
    intro w hw
    obtain ⟨w0, hw0, rfl⟩ := List.mem_map.mp hw
    have hne : w0 ≠ [] := pySplit_word_ne _ [] w0 hw0
    have hbne : (String.mk w0 != "") = true := by
      rw [bne_iff_ne]
      intro hcontra
      apply hne
      simpa using congrArg String.data hcontra
    rw [hbne, Bool.true_and]
  · rfl

/-- C6.  On the question about being stressed about a job, select_teaching
returns the duty entry with chapter 2.47, not the surrender entry, and the
expanded query set contains stressed and job together with the whole duty
cluster added by synonym expansion. -/
theorem claim6_end_to_end_duty :
    select_teaching "I am stressed about my job, what should I do?"
        = Except.ok gitaDuty
      ∧ gitaDuty.chapter = "2.47"
      ∧ gitaDuty.reference = "Bhagavad-gītā 2.47"
      ∧ gitaDuty.chapter ≠ "18.66"
      ∧ ({"stressed", "job", "duty", "work", "career", "study",
          "responsibility", "task"} : Finset String)
          ⊆ qsetOf "I am stressed about my job, what should I do?" := by
  refine ⟨?_, rfl, rfl, by decide, by decide⟩
  rfl
